import Mathlib

/-!
# Verification of the ai-studio-ext request-dispatch core

Shallow embedding of the repository's authenticated request-dispatch core:

* the SHA-1 hash engine (`createHashGenerator` in `src/api/auth.ts`),
* the token deriver (`createAuthParams` / `createAuthHash` in `src/api/auth.ts`),
* credential discovery (`findApiKeys` in the new-prompt content script),
* the retry loop of the request dispatcher (`attemptRequestWithKeys`),
* the prompt schema converter (`convertResponseSchema`, `convertPromptAPI`,
  `convertPromptStudio`, `convertPromptData`).

JavaScript 32-bit integer arithmetic is modelled on `Nat` with explicit
masking (`&&& 0xffffffff`, `% 2^32`); all values involved stay below `2^32`,
so signed/unsigned representation differences of JS bitwise operators are
immaterial (the operations agree modulo `2^32` and every value that is stored
or compared is masked, exactly as in the source).
-/

namespace AiStudioExt

/-! ## Hash engine (`createHashGenerator`, src/api/auth.ts lines 507-710)

The generator's mutable state is `hashValues` (five 32-bit registers),
`messageBuffer` together with `bufferPos` (modelled as a single list holding
the first `bufferPos` bytes — the only bytes ever read before being
overwritten), and `totalLength`. -/

/-- The five 32-bit hash registers (`hashValues` in the source). -/
structure Sha1H where
  a : Nat
  b : Nat
  c : Nat
  d : Nat
  e : Nat
  deriving DecidableEq, Repr

/-- Initial register values, as in `reset()`. -/
def sha1Init : Sha1H := ⟨1732584193, 4023233417, 2562383102, 271733878, 3285377520⟩

/-- `processBlock`, first loop: pack 64 bytes into 16 big-endian 32-bit words
(`(block[i] << 24) | (block[i+1] << 16) | (block[i+2] << 8) | block[i+3]`). -/
def toWords : List Nat → List Nat
  | b0 :: b1 :: b2 :: b3 :: rest =>
      ((b0 <<< 24) ||| (b1 <<< 16) ||| (b2 <<< 8) ||| b3) :: toWords rest
  | _ => []

/-- `((w << 1) | (w >>> 31)) & 0xffffffff` — circular left shift by 1. -/
def rotl1 (w : Nat) : Nat := ((w <<< 1) ||| (w >>> 31)) &&& 0xffffffff

/-- `processBlock`, second loop: extend 16 words to 80.  The accumulator keeps
the words most-recent-first, so `wordArray[i-3]` is entry 2, `wordArray[i-8]`
entry 7, `wordArray[i-14]` entry 13 and `wordArray[i-16]` entry 15. -/
def expandRev : List Nat → Nat → List Nat
  | rws, 0 => rws
  | rws, n + 1 =>
      let w := (rws.getD 2 0) ^^^ (rws.getD 7 0) ^^^ (rws.getD 13 0) ^^^ (rws.getD 15 0)
      expandRev (rotl1 w :: rws) n

/-- The 80-word message schedule of a 64-byte block, in round order. -/
def schedule (block : List Nat) : List Nat := (expandRev (toWords block).reverse 64).reverse

/-- The round-dependent nonlinear function `f` of the main loop (`~b` on a
32-bit value is `b ^^^ 0xffffffff`). -/
def sha1F (i b c d : Nat) : Nat :=
  if i < 20 then (b &&& c) ||| ((b ^^^ 0xffffffff) &&& d)
  else if i < 40 then b ^^^ c ^^^ d
  else if i < 60 then (b &&& c) ||| (d &&& (b ||| c))
  else b ^^^ c ^^^ d

/-- The round constant `k` of the main loop. -/
def sha1K (i : Nat) : Nat :=
  if i < 20 then 1518500249 else if i < 40 then 1859775393
  else if i < 60 then 2400959708 else 3395469782

/-- One iteration of the main loop: `temp = (rotl5(a) + f + e + k + w[i]) mod 2^32;
e = d; d = c; c = rotl30(b); b = a; a = temp`. -/
def roundStep (st : Sha1H) (iw : Nat × Nat) : Sha1H :=
  let temp := ((((st.a <<< 5) ||| (st.a >>> 27)) &&& 0xffffffff) +
      sha1F iw.1 st.b st.c st.d + st.e + sha1K iw.1 + iw.2) &&& 0xffffffff
  ⟨temp, st.a, ((st.b <<< 30) ||| (st.b >>> 2)) &&& 0xffffffff, st.c, st.d⟩

/-- `processBlock`: compress one 64-byte block into the registers. -/
def processBlock (h : Sha1H) (block : List Nat) : Sha1H :=
  let st := (schedule block).enum.foldl roundStep h
  ⟨(h.a + st.a) &&& 0xffffffff, (h.b + st.b) &&& 0xffffffff, (h.c + st.c) &&& 0xffffffff,
    (h.d + st.d) &&& 0xffffffff, (h.e + st.e) &&& 0xffffffff⟩

/-- The generator's state between calls: registers, the buffered partial
block, and the running byte count. -/
structure HashState where
  h : Sha1H
  buffer : List Nat
  totalLength : Nat
  deriving DecidableEq, Repr

/-- The `padding` array: `0x80` followed by 63 zero bytes. -/
def sha1Padding : List Nat := 128 :: List.replicate 63 0

/-- `update`, fast path: `while (dataPos + 64 < length)` process whole blocks.
The loop is written with an explicit structural iteration bound (one unit of
fuel per consumed byte is more than enough, see `processFullAux_fuel`). -/
def processFullAux : Nat → Sha1H → List Nat → Sha1H × List Nat
  | 0, h, data => (h, data)
  | fuel + 1, h, data =>
      if 64 < data.length then
        processFullAux fuel (processBlock h (data.take 64)) (data.drop 64)
      else (h, data)

/-- `update`'s block-processing loop with its sufficient fuel. -/
def processFull (h : Sha1H) (data : List Nat) : Sha1H × List Nat :=
  processFullAux data.length h data

/-- `update`, buffering path: append bytes to `messageBuffer` one at a time;
on a full buffer, process it and re-enter the fast path.  Again with an
explicit structural fuel, one unit per byte of input. -/
def fillLoopAux : Nat → Sha1H → List Nat → List Nat → Sha1H × List Nat
  | _, h, buffer, [] => (h, buffer)
  | 0, h, buffer, _ => (h, buffer)
  | fuel + 1, h, buffer, b :: rest =>
      let buffer' := buffer ++ [b]
      if buffer'.length = 64 then
        let r1 := processFull (processBlock h buffer') rest
        fillLoopAux fuel r1.1 [] r1.2
      else
        fillLoopAux fuel h buffer' rest

/-- `update`'s buffering loop with its sufficient fuel. -/
def fillLoop (h : Sha1H) (buffer : List Nat) (data : List Nat) : Sha1H × List Nat :=
  fillLoopAux data.length h buffer data

/-- `update(data)`: the fast path runs only when the buffer is empty, then the
buffering loop consumes what is left; `totalLength` grows by every consumed
byte. -/
def updateH (st : HashState) (data : List Nat) : HashState :=
  let pr := if st.buffer.length = 0 then processFull st.h data else (st.h, data)
  let fl := fillLoop pr.1 st.buffer pr.2
  ⟨fl.1, fl.2, st.totalLength + data.length⟩

/-- The length-append loop of `digest()`: `for (i = 63; i >= 56; i--)
{ messageBuffer[i] = bitLength & 0xff; bitLength >>>= 8 }`.  JavaScript's
`>>>=` first coerces to an unsigned 32-bit integer, hence the `% 2^32` before
each shift; bits of the length above 2^32 are lost. -/
def jsLenLoop : Nat → Nat → List Nat
  | _, 0 => []
  | bl, k + 1 => jsLenLoop ((bl % 4294967296) >>> 8) k ++ [bl &&& 255]

/-- The eight length bytes (`messageBuffer[56..63]`) written by `digest()`. -/
def lenBytesJS (bitLength : Nat) : List Nat := jsLenLoop bitLength 8

/-- Big-endian bytes of the five registers (`digest()`'s output loop). -/
def hashBytesOf (h : Sha1H) : List Nat :=
  [h.a, h.b, h.c, h.d, h.e].flatMap
    (fun w => [(w >>> 24) &&& 255, (w >>> 16) &&& 255, (w >>> 8) &&& 255, w &&& 255])

/-- `digest()`: pad to 56 bytes mod 64 via `update`, overwrite positions
56–63 of the message buffer with the length bytes, process the final block,
and serialise the registers. -/
def digestH (st : HashState) : List Nat :=
  let bitLength := st.totalLength * 8
  let r := st.buffer.length
  let st' := if r < 56 then updateH st (sha1Padding.take (56 - r))
    else updateH st (sha1Padding.take (64 - (r - 56)))
  let finalBlock := st'.buffer.take 56 ++ lenBytesJS bitLength
  let hF := processBlock st'.h finalBlock
  hashBytesOf hF

/-- The hex digit table `"0123456789ABCDEF"` used by `getHashHex`. -/
def hexDigits : List Char := "0123456789ABCDEF".data

/-- `getHashHex()` (the generator's `getHash`): two hex characters per digest
byte, using the uppercase digit table. -/
def getHashHexM (st : HashState) : String :=
  String.mk ((digestH st).flatMap
    (fun b => [hexDigits.getD (b / 16) ' ', hexDigits.getD (b % 16) ' ']))

/-- The state `createHashGenerator()` returns after its `reset()`. -/
def initHashState : HashState := ⟨sha1Init, [], 0⟩

/-- UTF-8 bytes of one character — what
`unescape(encodeURIComponent(data)).charCodeAt(i)` yields in `update`. -/
def utf8Char (c : Char) : List Nat :=
  let n := c.toNat
  if n < 128 then [n]
  else if n < 2048 then [192 ||| (n >>> 6), 128 ||| (n &&& 63)]
  else if n < 65536 then [224 ||| (n >>> 12), 128 ||| ((n >>> 6) &&& 63), 128 ||| (n &&& 63)]
  else [240 ||| (n >>> 18), 128 ||| ((n >>> 12) &&& 63), 128 ||| ((n >>> 6) &&& 63),
    128 ||| (n &&& 63)]

/-- UTF-8 bytes of a string. -/
def utf8Bytes (s : String) : List Nat := s.data.flatMap utf8Char

/-- `String.prototype.toLowerCase`, character by character (the argument here
is always ASCII hex digits, for which JS `toLowerCase` is exactly the ASCII
lowercase map). -/
def jsToLower (s : String) : String := String.mk (s.data.map Char.toLower)

/-- `calculateHash(input)`: one `update` with the string's UTF-8 bytes, then
`getHash().toLowerCase()`. -/
def calculateHash (input : String) : String :=
  jsToLower (getHashHexM (updateH initHashState (utf8Bytes input)))

/-! ## Token deriver (`createAuthParams` / `createAuthHash`, src/api/auth.ts)

`Date.now()` is ambient state: the Unix timestamp in seconds
(`Math.floor(Date.now() / 1000)`) is passed as an explicit parameter `ts`.
`createAuthHash` reads `window.location.href` and normalizes it with
`normalizeUrl`; the normalized origin is likewise passed explicitly as
`url`.  JS string truthiness (`currentUrl && token && hashName`) is
non-emptiness. -/

/-- One `{key, value}` entry of `additionalParams`. -/
structure AuthParam where
  key : String
  value : String
  deriving DecidableEq, Repr

/-- The `additionalParams` argument: `null`/`undefined`, some non-array
value, or an array of `{key, value}` pairs (`Array.isArray` is true exactly
for the last). -/
inductive AdditionalParams where
  | null
  | nonArray
  | params (l : List AuthParam)
  deriving DecidableEq, Repr

/-- `createAuthParams(url, token, additionalParams)` (the `additionalData`
array in the source is always empty, so its `forEach` pushes nothing). -/
def createAuthParams (url token : String) (ap : AdditionalParams) (ts : Nat) : String :=
  match ap with
  | .params l =>
      let keys := l.map (·.key)
      let values := l.map (·.value)
      let baseParams := if values.length = 0 then [toString ts, token, url]
        else [String.intercalate ":" values, toString ts, token, url]
      let hash := calculateHash (String.intercalate " " baseParams)
      let result := [toString ts, hash] ++ (if keys.length > 0 then [String.join keys] else [])
      String.intercalate "_" result
  | _ => calculateHash (String.intercalate " " [token, url])

/-- `createAuthHash(token, hashName, additionalParams)`: `url` stands for
`normalizeUrl(String(window.location.href))`.  The source guards on the raw
href's truthiness; `normalizeUrl` returns `""` exactly on a falsy URL and a
non-empty `protocol://host` otherwise, so the guard is modelled on the
normalized origin.  `additionalParams || null` replaces any falsy value by
`null`, which lands in the same non-array branch of `createAuthParams`. -/
def createAuthHash (url token hashName : String) (ap : AdditionalParams) (ts : Nat) :
    Option String :=
  if url ≠ "" ∧ token ≠ "" ∧ hashName ≠ "" then
    some (String.intercalate " " [hashName, createAuthParams url token ap ts])
  else none

/-! ## JSON values

The canonical payload is a nested JSON array.  JS numbers are modelled
opaquely as rationals (the converter only moves them around; it never
computes with them). -/

/-- A JSON value as produced by the schema converter.  `JSON.stringify` turns
`undefined` array entries into `null`, so `undefined` is identified with
`null`. -/
inductive JVal where
  | null
  | num (n : ℚ)
  | str (s : String)
  | bool (b : Bool)
  | arr (l : List JVal)
  deriving Repr

mutual

/-- Structural boolean equality on JSON values. -/
def JVal.beq : JVal → JVal → Bool
  | .null, .null => true
  | .num a, .num b => a == b
  | .str a, .str b => a == b
  | .bool a, .bool b => a == b
  | .arr a, .arr b => JVal.beqList a b
  | _, _ => false

/-- Structural boolean equality on lists of JSON values. -/
def JVal.beqList : List JVal → List JVal → Bool
  | [], [] => true
  | x :: xs, y :: ys => JVal.beq x y && JVal.beqList xs ys
  | _, _ => false

end

/-- `JVal.beq` decides propositional equality. -/
def JVal.beqIff : ∀ a b : JVal, (JVal.beq a b = true ↔ a = b) :=
  @JVal.rec (fun a => ∀ b, JVal.beq a b = true ↔ a = b)
    (fun l => ∀ b, JVal.beqList l b = true ↔ l = b)
    (fun b => by cases b <;> simp [JVal.beq])
    (fun n b => by cases b <;> simp [JVal.beq])
    (fun s b => by cases b <;> simp [JVal.beq])
    (fun v b => by cases b <;> simp [JVal.beq])
    (fun l ih b => by cases b <;> simp [JVal.beq, ih])
    (fun b => by cases b <;> simp [JVal.beqList])
    (fun x xs ihx ihxs b => by cases b <;> simp [JVal.beqList, ihx, ihxs])

instance : DecidableEq JVal := fun a b => decidable_of_iff _ (JVal.beqIff a b)

/-- JS truthiness of a JSON value (`0`, `""`, `false`, `null`/`undefined`
are falsy; every array and every other number/string is truthy). -/
def jsTruthy : JVal → Bool
  | .null => false
  | .num n => decide (n ≠ 0)
  | .str s => decide (s ≠ "")
  | .bool b => b
  | .arr _ => true

/-! ## Structured-output schema conversion (`convertResponseSchema`) -/

/-- A structured-output response schema (the `Schema` union of the source:
string/number/integer/boolean/array/object).  `type` strings of well-typed
inputs are exactly the six lowercase `SchemaType` values, so
`type.toLocaleLowerCase()` is the identity on them.  Object `properties` are
an insertion-ordered association list, matching `Object.entries`. -/
inductive RSchema where
  | str (description : Option String) (nullable : Option Bool) (enumV : Option (List String))
  | num (description : Option String) (nullable : Option Bool)
  | int (description : Option String) (nullable : Option Bool)
  | bool (description : Option String) (nullable : Option Bool)
  | arr (description : Option String) (nullable : Option Bool) (items : RSchema)
  | obj (description : Option String) (nullable : Option Bool)
      (props : List (String × RSchema)) (required : Option (List String))

/-- `responseSchema.description ?? null` / `responseSchema.nullable ?? null`. -/
def optJ (f : α → JVal) : Option α → JVal
  | some a => f a
  | none => JVal.null

/-- The trailing-null strip of `convertResponseSchema`: walk from the end,
drop everything after the last non-null entry; when every entry is null the
loop never fires and the array is left untouched. -/
def stripTrailing (l : List JVal) : List JVal :=
  let kept := (l.reverse.dropWhile (fun v => decide (v = JVal.null))).reverse
  if kept = [] then l else kept

mutual

/-- `convertResponseSchema`: build the fixed 8-slot positional array
`[typeNumber, null, description, nullable, enum, items, properties,
required]` — with `enum` kept only for string schemas (a present-but-empty
array is truthy and kept), `items` only for arrays, `properties` and
`required` only for objects — then strip trailing nulls. -/
def convertResponseSchema : RSchema → JVal
  | .str d n e =>
      JVal.arr (stripTrailing
        [JVal.num 1, JVal.null, optJ JVal.str d, optJ JVal.bool n,
          (match e with | some l => JVal.arr (l.map JVal.str) | none => JVal.null),
          JVal.null, JVal.null, JVal.null])
  | .num d n =>
      JVal.arr (stripTrailing
        [JVal.num 2, JVal.null, optJ JVal.str d, optJ JVal.bool n,
          JVal.null, JVal.null, JVal.null, JVal.null])
  | .int d n =>
      JVal.arr (stripTrailing
        [JVal.num 3, JVal.null, optJ JVal.str d, optJ JVal.bool n,
          JVal.null, JVal.null, JVal.null, JVal.null])
  | .bool d n =>
      JVal.arr (stripTrailing
        [JVal.num 4, JVal.null, optJ JVal.str d, optJ JVal.bool n,
          JVal.null, JVal.null, JVal.null, JVal.null])
  | .arr d n items =>
      JVal.arr (stripTrailing
        [JVal.num 5, JVal.null, optJ JVal.str d, optJ JVal.bool n,
          JVal.null, convertResponseSchema items, JVal.null, JVal.null])
  | .obj d n props req =>
      JVal.arr (stripTrailing
        [JVal.num 6, JVal.null, optJ JVal.str d, optJ JVal.bool n,
          JVal.null, JVal.null, JVal.arr (convertProps props),
          (match req with | some l => JVal.arr (l.map JVal.str) | none => JVal.null)])

/-- `Object.entries(responseSchema.properties).map(([key, value]) =>
[key, convertResponseSchema(value)])`. -/
def convertProps : List (String × RSchema) → List JVal
  | [] => []
  | p :: rest => JVal.arr [JVal.str p.1, convertResponseSchema p.2] :: convertProps rest

end

/-- The 8-slot array of `convertResponseSchema` before the trailing strip,
factored out for stating the trimming property. -/
def convertSchemaFields : RSchema → List JVal
  | .str d n e =>
      [JVal.num 1, JVal.null, optJ JVal.str d, optJ JVal.bool n,
        (match e with | some l => JVal.arr (l.map JVal.str) | none => JVal.null),
        JVal.null, JVal.null, JVal.null]
  | .num d n =>
      [JVal.num 2, JVal.null, optJ JVal.str d, optJ JVal.bool n,
        JVal.null, JVal.null, JVal.null, JVal.null]
  | .int d n =>
      [JVal.num 3, JVal.null, optJ JVal.str d, optJ JVal.bool n,
        JVal.null, JVal.null, JVal.null, JVal.null]
  | .bool d n =>
      [JVal.num 4, JVal.null, optJ JVal.str d, optJ JVal.bool n,
        JVal.null, JVal.null, JVal.null, JVal.null]
  | .arr d n items =>
      [JVal.num 5, JVal.null, optJ JVal.str d, optJ JVal.bool n,
        JVal.null, convertResponseSchema items, JVal.null, JVal.null]
  | .obj d n props req =>
      [JVal.num 6, JVal.null, optJ JVal.str d, optJ JVal.bool n,
        JVal.null, JVal.null, JVal.arr (convertProps props),
        (match req with | some l => JVal.arr (l.map JVal.str) | none => JVal.null)]

/-! ## Prompt conversion (`convertPromptAPI`, `convertPromptStudio`,
`convertPromptData`)

A prompt document is modelled with the fields the converters read.
`genConfigPresent` is the `"generationConfig" in generationRequest` marker
(key presence, independent of the key's value). -/

/-- A `{text}` part of a Gemini-API `Content`. -/
structure ContentPart where
  text : String
  deriving DecidableEq, Repr

/-- One Gemini-API message turn (`{role, parts}`). -/
structure Content where
  role : String
  parts : List ContentPart
  deriving DecidableEq, Repr

/-- One AI-Studio chunk (`{role, text, ...}`); only `role` and `text` are
read by the converter. -/
structure ChunkedMessage where
  role : String
  text : String
  deriving DecidableEq, Repr

/-- The fields of `generationConfig` read by `convertPromptAPI`. -/
structure GenerationConfig where
  temperature : Option ℚ := none
  topP : Option ℚ := none
  topK : Option ℚ := none
  maxOutputTokens : Option ℚ := none
  responseMimeType : Option String := none
  responseSchema : Option RSchema := none

/-- The fields of `runSettings` read by `convertPromptStudio`. -/
structure RunSettings where
  temperature : Option ℚ := none
  model : Option String := none
  topP : Option ℚ := none
  topK : Option ℚ := none
  maxOutputTokens : Option ℚ := none
  responseMimeType : Option String := none
  responseSchema : Option RSchema := none

/-- An input document, covering both shapes (each converter reads only its
own side's fields; `convertPromptData` dispatches on `genConfigPresent`). -/
structure PromptDoc where
  genConfigPresent : Bool := false
  generationConfig : Option GenerationConfig := none
  model : Option String := none
  systemInstruction : Option JVal := none
  contents : List Content := []
  runSettings : Option RunSettings := none
  chunkedPrompt : Option (List ChunkedMessage) := none

/-- Role mapping of `convertMessage`: `"model"` and `"assistant"` map to
`"model"`, everything else (including `"user"`) to `"user"`. -/
def convertRole (role : String) : String :=
  if role = "model" ∨ role = "assistant" then "model" else "user"

/-- `convertMessage(role, message)`: the fixed 9-element message tuple. -/
def convertMessage (role text : String) : JVal :=
  JVal.arr [JVal.str text, JVal.null, JVal.null, JVal.null, JVal.null, JVal.null,
    JVal.null, JVal.null, JVal.str (convertRole role)]

/-- The literal `UNKNOWN_PAD` block. -/
def unknownPad : JVal :=
  JVal.arr [JVal.arr [JVal.null, JVal.null, JVal.num 7, JVal.num 1],
    JVal.arr [JVal.null, JVal.null, JVal.num 8, JVal.num 2],
    JVal.arr [JVal.null, JVal.null, JVal.num 9, JVal.num 3],
    JVal.arr [JVal.null, JVal.null, JVal.num 10, JVal.num 4],
    JVal.arr [JVal.null, JVal.null, JVal.num 11, JVal.num 5]]

/-- `x ?? null` on an optional number. -/
def optNumJ : Option ℚ → JVal
  | some n => JVal.num n
  | none => JVal.null

/-- `generationRequest.systemInstruction ? [systemInstruction] : []`. -/
def sysInstrJ : Option JVal → JVal
  | some v => if jsTruthy v then JVal.arr [v] else JVal.arr []
  | none => JVal.arr []

/-- The literal `[["", null, ..., "user"]]` user-input placeholder. -/
def emptyUserTurn : JVal :=
  JVal.arr [JVal.arr [JVal.str "", JVal.null, JVal.null, JVal.null, JVal.null, JVal.null,
    JVal.null, JVal.null, JVal.str "user"]]

/-- The shared `title` array. -/
def titleArr (promptName : String) : JVal :=
  JVal.arr [JVal.str promptName, JVal.null, JVal.null, JVal.null, JVal.null, JVal.null,
    JVal.null, JVal.null, JVal.null, JVal.null, JVal.arr []]

/-- `MIME ?? (schema ? "application/json" : "text/plain")`. -/
def mimeJ (mime : Option String) (schema : Option RSchema) : JVal :=
  JVal.str (match mime with
    | some s => s
    | none => if schema.isSome then "application/json" else "text/plain")

/-- `schema ? convertResponseSchema(schema) : null`. -/
def schemaJ : Option RSchema → JVal
  | some s => convertResponseSchema s
  | none => JVal.null

/-- `convertPromptAPI(promptName, generationRequest)`. -/
def convertPromptAPI (promptName : String) (r : PromptDoc) : JVal :=
  let gc := r.generationConfig
  let config : List JVal :=
    [optNumJ (gc.bind (·.temperature)),
      JVal.null,
      (match r.model with
        | some m => if m = "" then JVal.null else JVal.str ("models/" ++ m)
        | none => JVal.null),
      JVal.null,
      optNumJ (gc.bind (·.topP)),
      optNumJ (gc.bind (·.topK)),
      optNumJ (gc.bind (·.maxOutputTokens)),
      unknownPad,
      mimeJ (gc.bind (·.responseMimeType)) (gc.bind (·.responseSchema)),
      JVal.num 0,
      schemaJ (gc.bind (·.responseSchema)),
      JVal.null, JVal.null, JVal.num 1, JVal.num 0, JVal.null, JVal.null,
      JVal.num 0, JVal.num 0]
  JVal.arr [JVal.arr
    [JVal.null, JVal.null, JVal.null, JVal.arr config, titleArr promptName,
      JVal.null, JVal.null, JVal.null, JVal.null, JVal.null, JVal.null, JVal.null,
      sysInstrJ r.systemInstruction,
      JVal.arr [JVal.arr (r.contents.flatMap
          (fun c => c.parts.map (fun p => convertMessage c.role p.text))),
        emptyUserTurn]]]

/-- `convertPromptStudio(promptName, generationRequest)`.  When
`chunkedPrompt` is absent, `chunkedPrompt?.chunks.map(...)` is `undefined`,
which `JSON.stringify` serialises as `null` in the payload array. -/
def convertPromptStudio (promptName : String) (r : PromptDoc) : JVal :=
  let rs := r.runSettings
  let config : List JVal :=
    [optNumJ (rs.bind (·.temperature)),
      JVal.null,
      (match rs.bind (·.model) with
        | some m => JVal.str m
        | none => JVal.null),
      JVal.null,
      optNumJ (rs.bind (·.topP)),
      optNumJ (rs.bind (·.topK)),
      optNumJ (rs.bind (·.maxOutputTokens)),
      unknownPad,
      mimeJ (rs.bind (·.responseMimeType)) (rs.bind (·.responseSchema)),
      JVal.num 0,
      schemaJ (rs.bind (·.responseSchema)),
      JVal.null, JVal.null, JVal.num 1, JVal.num 0, JVal.null, JVal.null,
      JVal.num 0, JVal.num 0]
  JVal.arr [JVal.arr
    [JVal.null, JVal.null, JVal.null, JVal.arr config, titleArr promptName,
      JVal.null, JVal.null, JVal.null, JVal.null, JVal.null, JVal.null, JVal.null,
      sysInstrJ r.systemInstruction,
      JVal.arr [(match r.chunkedPrompt with
          | some chunks => JVal.arr (chunks.map (fun c => convertMessage c.role c.text))
          | none => JVal.null),
        emptyUserTurn]]]

/-- `convertPromptData(promptName, generationRequest)`: dispatch on the
presence of the `generationConfig` key; everything else — AI-Studio files
and unrecognized documents alike — goes to `convertPromptStudio`. -/
def convertPromptData (promptName : String) (r : PromptDoc) : JVal :=
  if r.genConfigPresent then convertPromptAPI promptName r
  else convertPromptStudio promptName r

/-! ## Credential discovery (`findApiKeys`)

The environment — `document.querySelectorAll("script")` and the regex
`match` against each script's `innerHTML` — is modelled as the per-script
lists of raw regex matches (quoted `AIzaSy…` substrings, quote characters
still attached, in document order). -/

/-- `m.replace(/[`'"]/g, "")`: drop backtick, apostrophe and double-quote
characters (code points 96, 39, 34). -/
def stripQuotes (s : String) : String :=
  String.mk (s.data.filter (fun c => ¬(c.toNat = 96 ∨ c.toNat = 39 ∨ c.toNat = 34)))

/-- `Set.prototype.add`: append only if absent, keeping first-insertion
order. -/
def insertKey (acc : List String) (k : String) : List String :=
  if k ∈ acc then acc else acc ++ [k]

/-- `findApiKeys(ignore)`: for every script, for every match, strip quotes,
skip ignored keys, add to the set; finally `Array.from(set).reverse()`. -/
def findApiKeys (scripts : List (List String)) (ignore : List String) : List String :=
  (scripts.foldl (fun acc ms => ms.foldl (fun acc m =>
      let key := stripQuotes m
      if key ∈ ignore then acc else insertKey acc key) acc) []).reverse

/-! ## Request dispatcher retry loop (`attemptRequestWithKeys`)

The per-attempt network outcome is an oracle `succeeds : Nat → String →
Bool` of the global attempt counter and the API key (an HTTP status in
[200, 300) and a transport error handler run the same failure logic, so one
boolean suffices).  The mutable module state `cachedApiKeys` /
`lastSuccessfulKey` is threaded explicitly and returned together with the
outcome; `attempts` counts executed attempts and `refreshes` counts
`findApiKeys([currentKey])` re-discoveries. -/

/-- Terminal outcome of one dispatch. -/
inductive DispatchOutcome where
  | success (key : String)
  | exhausted
  deriving DecidableEq, Repr

/-- Result of the retry loop: outcome, number of attempts, number of pool
refreshes, and the final `lastSuccessfulKey` / `cachedApiKeys` globals. -/
structure RunResult where
  outcome : DispatchOutcome
  attempts : Nat
  refreshes : Nat
  lastKey : Option String
  cache : List String
  deriving DecidableEq, Repr

/-- Bookkeeping: one more executed attempt before returning `r`. -/
def bumpA (r : RunResult) : RunResult :=
  ⟨r.outcome, r.attempts + 1, r.refreshes, r.lastKey, r.cache⟩

/-- Bookkeeping: one more executed attempt and one pool refresh before
returning `r`. -/
def bumpR (r : RunResult) : RunResult :=
  ⟨r.outcome, r.attempts + 1, r.refreshes + 1, r.lastKey, r.cache⟩

/-- `attemptRequestWithKeys(keyIndex, keys, ...)` with globals
`lastSuccessfulKey = last` and `cachedApiKeys = cache`, at global attempt
counter `n`:
* index past the end → the combined all-keys-failed error;
* success → store the key in `lastSuccessfulKey` and stop;
* failure of the remembered last-successful key → re-discover excluding it
  (`findApiKeys([currentKey])` becomes the new cache), clear
  `lastSuccessfulKey`, restart at index 0 of the new pool when it is
  non-empty, else fall through to the next index of the old list;
* any other failure → next index. -/
def attemptRequestWithKeys (scripts : List (List String)) (succeeds : Nat → String → Bool) :
    Nat → Nat → List String → Option String → List String → RunResult
  | n, keyIndex, keys, last, cache =>
    if h : keys.length ≤ keyIndex then ⟨.exhausted, 0, 0, last, cache⟩
    else if succeeds n (keys.get ⟨keyIndex, by omega⟩) then
      ⟨.success (keys.get ⟨keyIndex, by omega⟩), 1, 0, some (keys.get ⟨keyIndex, by omega⟩),
        cache⟩
    else if last = some (keys.get ⟨keyIndex, by omega⟩) then
      if (findApiKeys scripts [keys.get ⟨keyIndex, by omega⟩]).length > 0 then
        bumpR (attemptRequestWithKeys scripts succeeds (n + 1) 0
          (findApiKeys scripts [keys.get ⟨keyIndex, by omega⟩])
          none (findApiKeys scripts [keys.get ⟨keyIndex, by omega⟩]))
      else
        bumpR (attemptRequestWithKeys scripts succeeds (n + 1) (keyIndex + 1) keys
          none (findApiKeys scripts [keys.get ⟨keyIndex, by omega⟩]))
    else
      bumpA (attemptRequestWithKeys scripts succeeds (n + 1) (keyIndex + 1) keys last cache)
termination_by _ keyIndex keys last _ =>
  ((match last with | some _ => 1 | none => 0), keys.length - keyIndex)

/-! ## Reference SHA-1 (specification model)

The spec's reference algorithm ("the standard 160-bit iterative compression
algorithm … big-endian byte length padding"), written as pad-then-compress
over the same compression function: append `0x80`, zero bytes up to 56 mod
64, and the 64-bit big-endian bit length, then fold `processBlock` over the
64-byte chunks. -/

/-- The standard 64-bit big-endian length field. -/
def refLenBytes (bitLength : Nat) : List Nat :=
  let bl := bitLength % 18446744073709551616
  [(bl >>> 56) &&& 255, (bl >>> 48) &&& 255, (bl >>> 40) &&& 255, (bl >>> 32) &&& 255,
    (bl >>> 24) &&& 255, (bl >>> 16) &&& 255, (bl >>> 8) &&& 255, bl &&& 255]

/-- Standard SHA-1 padding: `0x80`, then `z` zeros with
`len + 1 + z + 8 ≡ 0 (mod 64)`, then the 64-bit big-endian bit length. -/
def refPad (data : List Nat) : List Nat :=
  data ++ 128 :: List.replicate ((119 - data.length % 64) % 64) 0
    ++ refLenBytes (data.length * 8)

/-- Split a list into consecutive 64-byte chunks. -/
def exactChunks (l : List Nat) : List (List Nat) :=
  if _h : l = [] then [] else l.take 64 :: exactChunks (l.drop 64)
termination_by l.length
decreasing_by
  have hpos := List.length_pos.mpr _h
  simp [List.length_drop]
  omega

/-- Fold the compression function over the 64-byte chunks of a list. -/
def absorb (h : Sha1H) (l : List Nat) : Sha1H := (exactChunks l).foldl processBlock h

/-- Reference SHA-1 digest bytes of a byte sequence. -/
def refSha1Bytes (data : List Nat) : List Nat :=
  hashBytesOf (absorb sha1Init (refPad data))

/-! ## Specification-side predicates and characterizations -/

/-- First-occurrence deduplication — the discovery order of `Set.add`
(adding an element already present leaves its position unchanged). -/
def dedupFirst : List String → List String
  | [] => []
  | x :: xs => x :: dedupFirst (xs.filter (fun y => y ≠ x))
termination_by l => l.length
decreasing_by
  have := List.length_filter_le (fun y => decide (y ≠ x)) xs
  simp only [List.length_cons]
  omega

/-- Every array in the value ends in a non-null entry (arrays only, applied
recursively) — the shape `convertResponseSchema`'s trailing-null strip is
claimed to guarantee. -/
inductive Trimmed : JVal → Prop where
  | null : Trimmed JVal.null
  | num (n : ℚ) : Trimmed (JVal.num n)
  | str (s : String) : Trimmed (JVal.str s)
  | bool (b : Bool) : Trimmed (JVal.bool b)
  | arr (l : List JVal) (helems : ∀ v ∈ l, Trimmed v)
      (hlast : l.getLast? ≠ some JVal.null) : Trimmed (JVal.arr l)

/-- The lowercase hex digit table. -/
def lowerHexDigits : List Char := "0123456789abcdef".data

/-- "a 40-character lowercase hexadecimal string". -/
def isLower40Hex (s : String) : Prop :=
  s.length = 40 ∧ ∀ c ∈ s.data, c ∈ lowerHexDigits

instance (s : String) : Decidable (isLower40Hex s) := by
  unfold isLower40Hex; infer_instance

/-- "a 40-character (uppercase) hexadecimal string". -/
def isUpper40Hex (s : String) : Prop :=
  s.length = 40 ∧ ∀ c ∈ s.data, c ∈ hexDigits

instance (s : String) : Decidable (isUpper40Hex s) := by
  unfold isUpper40Hex; infer_instance

/-- The qualified model name `convertPromptAPI` emits: `models/` + the
`model` field when that is truthy, nothing otherwise. -/
def apiQualifiedModel (m : Option String) : Option String :=
  match m with
  | some s => if s = "" then none else some ("models/" ++ s)
  | none => none

/-- A Gemini-API document and an AI-Studio document that express the same
prompt: same configuration fields read from `generationConfig` resp.
`runSettings` — except that the Studio document's `model` field carries the
fully-qualified `models/…` name that `convertPromptAPI` builds from the API
document's bare `model` field — the same system instruction, and the same
message turns (the Studio chunk list is the flattened (role, text) sequence
of the API `contents`, and is present). -/
def EquivDocs (api studio : PromptDoc) : Prop :=
  api.genConfigPresent = true ∧
  studio.genConfigPresent = false ∧
  (api.generationConfig.bind (·.temperature)) = (studio.runSettings.bind (·.temperature)) ∧
  (api.generationConfig.bind (·.topP)) = (studio.runSettings.bind (·.topP)) ∧
  (api.generationConfig.bind (·.topK)) = (studio.runSettings.bind (·.topK)) ∧
  (api.generationConfig.bind (·.maxOutputTokens)) = (studio.runSettings.bind (·.maxOutputTokens)) ∧
  (api.generationConfig.bind (·.responseMimeType)) = (studio.runSettings.bind (·.responseMimeType)) ∧
  (api.generationConfig.bind (·.responseSchema)) = (studio.runSettings.bind (·.responseSchema)) ∧
  (studio.runSettings.bind (·.model)) = apiQualifiedModel api.model ∧
  api.systemInstruction = studio.systemInstruction ∧
  studio.chunkedPrompt =
    some (api.contents.flatMap (fun c => c.parts.map (fun p => ⟨c.role, p.text⟩)))

/-! # Theorems -/

/-! ## Credential discovery (claim C9) -/

/-- The per-match body of `findApiKeys` is a fold of `insertKey` over the
stripped, non-ignored matches. -/
theorem findFold_eq (ignore : List String) (ms : List String) : ∀ acc : List String,
    ms.foldl (fun acc m =>
        let key := stripQuotes m
        if key ∈ ignore then acc else insertKey acc key) acc
      = ((ms.map stripQuotes).filter (fun k => decide (k ∉ ignore))).foldl insertKey acc := by
  induction ms with
  | nil => intro acc; rfl
  | cons m rest ih =>
      intro acc
      by_cases h : stripQuotes m ∈ ignore <;>
        simp [List.filter_cons, h, ih]

/-- Unfolding lemma: `dedupFirst` on a cons. -/
theorem dedupFirst_cons (x : String) (xs : List String) :
    dedupFirst (x :: xs) = x :: dedupFirst (xs.filter (fun y => decide (y ≠ x))) := by
  rw [dedupFirst.eq_def]

/-- Folding `insertKey` appends the first occurrences of the not-yet-present
elements. -/
theorem foldl_insertKey (l : List String) : ∀ acc : List String,
    l.foldl insertKey acc = acc ++ dedupFirst (l.filter (fun k => decide (k ∉ acc))) := by
  induction l with
  | nil => intro acc; simp [dedupFirst]
  | cons x xs ih =>
      intro acc
      rw [List.foldl_cons]
      by_cases h : x ∈ acc
      · rw [show insertKey acc x = acc from if_pos h, ih]
        have hfil : (x :: xs).filter (fun k => decide (k ∉ acc))
            = xs.filter (fun k => decide (k ∉ acc)) := by
          simp [List.filter_cons, h]
        rw [hfil]
      · rw [show insertKey acc x = acc ++ [x] from if_neg h, ih]
        have h1 : (x :: xs).filter (fun k => decide (k ∉ acc))
            = x :: xs.filter (fun k => decide (k ∉ acc)) := by
          simp [List.filter_cons, h]
        have h2 : xs.filter (fun k => decide (k ∉ acc ++ [x]))
            = (xs.filter (fun k => decide (k ∉ acc))).filter (fun y => decide (y ≠ x)) := by
          rw [List.filter_filter]
          refine List.filter_congr ?_
          intro y _
          by_cases hy : y = x <;> by_cases hacc : y ∈ acc <;> simp [hy, hacc]
        rw [h1, dedupFirst_cons, h2]
        simp

/-- `dedupFirst` only returns elements of its input. -/
theorem dedupFirst_subset : ∀ l : List String, dedupFirst l ⊆ l := by
  intro l
  induction l using dedupFirst.induct with
  | case1 => simp [dedupFirst]
  | case2 x xs ih =>
      rw [dedupFirst]
      intro a ha
      rcases List.mem_cons.mp ha with h | h
      · exact h ▸ List.mem_cons_self _ _
      · exact List.mem_cons_of_mem _ (List.mem_of_mem_filter (ih h))

/-- `dedupFirst` returns a duplicate-free list. -/
theorem dedupFirst_nodup : ∀ l : List String, (dedupFirst l).Nodup := by
  intro l
  induction l using dedupFirst.induct with
  | case1 => simp [dedupFirst]
  | case2 x xs ih =>
      rw [dedupFirst]
      refine List.nodup_cons.mpr ⟨fun hx => ?_, ih⟩
      have := List.of_mem_filter (dedupFirst_subset _ hx)
      simp at this

/-- `findApiKeys` in closed form: reverse of the first-occurrence
deduplication of the stripped, non-ignored matches in document order. -/
theorem findApiKeys_eq (scripts : List (List String)) (ignore : List String) :
    findApiKeys scripts ignore
      = (dedupFirst ((scripts.flatten.map stripQuotes).filter
          (fun k => decide (k ∉ ignore)))).reverse := by
  unfold findApiKeys
  rw [← List.foldl_flatten, findFold_eq, foldl_insertKey, List.nil_append]
  have hfil : ((scripts.flatten.map stripQuotes).filter (fun k => decide (k ∉ ignore))).filter
      (fun k => decide (k ∉ ([] : List String)))
      = (scripts.flatten.map stripQuotes).filter (fun k => decide (k ∉ ignore)) := by
    exact List.filter_eq_self.mpr (fun a _ => by simp)
  rw [hfil]

/-- An explicitly excluded key never appears in the discovery result. -/
theorem not_mem_findApiKeys_of_mem_ignore (scripts : List (List String))
    (ignore : List String) (k : String) (hk : k ∈ ignore) :
    k ∉ findApiKeys scripts ignore := by
  intro hmem
  rw [findApiKeys_eq] at hmem
  have := List.of_mem_filter (dedupFirst_subset _ (List.mem_reverse.mp hmem))
  simp at this
  exact this hk

/-- The discovery result never has duplicates. -/
theorem findApiKeys_nodup (scripts : List (List String)) (ignore : List String) :
    (findApiKeys scripts ignore).Nodup := by
  rw [findApiKeys_eq]
  exact (List.nodup_reverse).mpr (dedupFirst_nodup _)

/-- C9.  For every environment content (the per-script regex match lists)
and every exclusion set, `findApiKeys` returns a list with no duplicate
keys and no excluded key, listing the remaining discovered keys in reverse
discovery order: it is exactly the reverse of the first-occurrence
deduplication of the non-excluded matches in scan order. -/
theorem findApiKeys_correct (scripts : List (List String)) (ignore : List String) :
    (findApiKeys scripts ignore).Nodup ∧
    (∀ k ∈ ignore, k ∉ findApiKeys scripts ignore) ∧
    findApiKeys scripts ignore
      = (dedupFirst ((scripts.flatten.map stripQuotes).filter
          (fun k => decide (k ∉ ignore)))).reverse :=
  ⟨findApiKeys_nodup scripts ignore,
    fun k hk => not_mem_findApiKeys_of_mem_ignore scripts ignore k hk,
    findApiKeys_eq scripts ignore⟩

/-- Concrete instance of C9: with two discovered keys and one excluded, the
excluded key is absent and the result is duplicate-free. -/
theorem findApiKeys_correct_witness :
    ("AIzaSyBBB" ∈ (["AIzaSyBBB"] : List String)) ∧
    "AIzaSyBBB" ∉ findApiKeys [["\"AIzaSyAAA\"", "\"AIzaSyBBB\""], ["\"AIzaSyAAA\""]]
        ["AIzaSyBBB"] ∧
    (findApiKeys [["\"AIzaSyAAA\"", "\"AIzaSyBBB\""], ["\"AIzaSyAAA\""]] ["AIzaSyBBB"]).Nodup :=
  ⟨by decide,
    (findApiKeys_correct _ _).2.1 "AIzaSyBBB" (by decide),
    (findApiKeys_correct _ _).1⟩

/-! ## Dispatcher retry loop (claims C4, C10) -/

/-- C4.  When the attempt with credential `X = keys[keyIndex]` fails and `X`
equals `lastSuccessful`, the pool is re-discovered excluding `X` — and the
refreshed pool never contains `X` — `lastSuccessful` is cleared (both
continuation calls carry `none`), and the loop restarts at index 0 of the
refreshed pool if it is non-empty, else continues with the next index of the
old list. -/
theorem attemptRequestWithKeys_refresh_step
    (scripts : List (List String)) (succeeds : Nat → String → Bool)
    (n keyIndex : Nat) (keys cache : List String) (X : String)
    (hidx : keyIndex < keys.length)
    (hkey : keys.get ⟨keyIndex, hidx⟩ = X)
    (hfail : succeeds n X = false) :
    X ∉ findApiKeys scripts [X] ∧
    attemptRequestWithKeys scripts succeeds n keyIndex keys (some X) cache
      = bumpR (if (findApiKeys scripts [X]).length > 0 then
            attemptRequestWithKeys scripts succeeds (n + 1) 0 (findApiKeys scripts [X])
              none (findApiKeys scripts [X])
          else
            attemptRequestWithKeys scripts succeeds (n + 1) (keyIndex + 1) keys
              none (findApiKeys scripts [X])) := by
  refine ⟨not_mem_findApiKeys_of_mem_ignore scripts [X] X (by simp), ?_⟩
  rw [attemptRequestWithKeys]
  rw [dif_neg (by omega : ¬keys.length ≤ keyIndex)]
  have hk2 : keys.get ⟨keyIndex, by omega⟩ = X := hkey
  simp only [hk2, hfail]
  simp only [Bool.false_eq_true, if_false, if_pos rfl, gt_iff_lt]
  by_cases hc : 0 < (findApiKeys scripts [X]).length <;> simp [hc]

/-- Concrete instance of C4: one key `K` that is the remembered
last-successful credential and fails; the step refreshes excluding `K`. -/
theorem attemptRequestWithKeys_refresh_step_witness :
    (0 : Nat) < (["K"] : List String).length ∧
    (["K"] : List String).get ⟨0, by decide⟩ = "K" ∧
    (fun _ _ => false : Nat → String → Bool) 0 "K" = false ∧
    ("K" ∉ findApiKeys [["\"AIzaSyNew\""]] ["K"] ∧
      attemptRequestWithKeys [["\"AIzaSyNew\""]] (fun _ _ => false) 0 0 ["K"] (some "K") ["K"]
        = bumpR (if (findApiKeys [["\"AIzaSyNew\""]] ["K"]).length > 0 then
              attemptRequestWithKeys [["\"AIzaSyNew\""]] (fun _ _ => false) 1 0
                (findApiKeys [["\"AIzaSyNew\""]] ["K"]) none (findApiKeys [["\"AIzaSyNew\""]] ["K"])
            else
              attemptRequestWithKeys [["\"AIzaSyNew\""]] (fun _ _ => false) 1 1 ["K"]
                none (findApiKeys [["\"AIzaSyNew\""]] ["K"]))) :=
  ⟨by decide, by decide, rfl,
    attemptRequestWithKeys_refresh_step [["\"AIzaSyNew\""]] (fun _ _ => false) 0 0 ["K"] ["K"]
      "K" (by decide) (by decide) rfl⟩

/-- C10.  The retry loop is a total function (it always terminates in a
`success` or `exhausted` outcome), performs at most one pool refresh, and
makes at most `(keys.length - keyIndex) + |refreshed pool|` attempts, where
the refreshed pool is the re-discovery excluding the remembered
last-successful credential (and no refresh can happen when none is
remembered). -/
theorem attemptRequestWithKeys_bounded
    (scripts : List (List String)) (succeeds : Nat → String → Bool) :
    ∀ (n keyIndex : Nat) (keys : List String) (last : Option String) (cache : List String),
    (attemptRequestWithKeys scripts succeeds n keyIndex keys last cache).refreshes
        ≤ (if last.isSome then 1 else 0) ∧
    (attemptRequestWithKeys scripts succeeds n keyIndex keys last cache).attempts
        ≤ (keys.length - keyIndex) +
          last.elim 0 (fun k => (findApiKeys scripts [k]).length) ∧
    ((attemptRequestWithKeys scripts succeeds n keyIndex keys last cache).outcome
        = DispatchOutcome.exhausted ∨
      ∃ k, (attemptRequestWithKeys scripts succeeds n keyIndex keys last cache).outcome
        = DispatchOutcome.success k) := by
  intro n keyIndex keys last cache
  induction n, keyIndex, keys, last, cache using attemptRequestWithKeys.induct scripts succeeds with
  | case1 n keyIndex keys last cache hge =>
      rw [attemptRequestWithKeys, dif_pos hge]
      cases last <;> simp
  | case2 n keyIndex keys last cache hlt hsucc =>
      rw [attemptRequestWithKeys, dif_neg hlt]
      simp only [hsucc, if_true]
      refine ⟨?_, ?_, by simp⟩
      · cases last <;> simp
      · cases last <;> simp <;> omega
  | case3 n keyIndex keys cache hlt hsucc hpos ih =>
      rw [attemptRequestWithKeys, dif_neg hlt]
      simp only [if_neg hsucc, if_pos rfl, if_pos hpos]
      obtain ⟨ih1, ih2, ih3⟩ := ih
      simp [bumpR] at ih1 ih2 ih3 ⊢
      refine ⟨by omega, by omega, by simpa using ih3⟩
  | case4 n keyIndex keys cache hlt hsucc hpos ih =>
      rw [attemptRequestWithKeys, dif_neg hlt]
      simp only [if_neg hsucc, if_pos rfl, if_neg hpos]
      obtain ⟨ih1, ih2, ih3⟩ := ih
      simp [bumpR] at ih1 ih2 ih3 ⊢
      refine ⟨by omega, by omega, by simpa using ih3⟩
  | case5 n keyIndex keys last cache hlt hsucc hlast ih =>
      rw [attemptRequestWithKeys, dif_neg hlt]
      simp only [if_neg hsucc, if_neg hlast]
      obtain ⟨ih1, ih2, ih3⟩ := ih
      simp [bumpA] at ih1 ih2 ih3 ⊢
      refine ⟨?_, ?_, by simpa using ih3⟩ <;> cases last with
      | none => simp at ih1 ih2 ⊢; omega
      | some k => simp at ih1 ih2 ⊢; omega

/-! ## Token deriver (claims C2, C3) -/

/-- `[a, b].join(s)`. -/
theorem intercalate_pair (s a b : String) : String.intercalate s [a, b] = a ++ s ++ b := by
  simp [String.intercalate, String.intercalate.go]

/-- `[a, b, c].join(s)`. -/
theorem intercalate_triple (s a b c : String) :
    String.intercalate s [a, b, c] = a ++ s ++ b ++ s ++ c := by
  simp [String.intercalate, String.intercalate.go]

/-- `[a, b, c, d].join(s)`. -/
theorem intercalate_quad (s a b c d : String) :
    String.intercalate s [a, b, c, d] = a ++ s ++ b ++ s ++ c ++ s ++ d := by
  simp [String.intercalate, String.intercalate.go]

/-- C2.  With a non-empty secret, normalized origin, and label, and no
parameter array (`additionalParams` null or not an array), the derived token
is `label ++ " " ++ Hash(secret ++ " " ++ origin)`. -/
theorem createAuthHash_no_params (origin token label : String) (ap : AdditionalParams)
    (ts : Nat)
    (hap : ap = AdditionalParams.null ∨ ap = AdditionalParams.nonArray)
    (ho : origin ≠ "") (ht : token ≠ "") (hl : label ≠ "") :
    createAuthHash origin token label ap ts
      = some (label ++ " " ++ calculateHash (token ++ " " ++ origin)) := by
  rcases hap with h | h <;> subst h <;>
    simp [createAuthHash, createAuthParams, ho, ht, hl, intercalate_pair]

/-- Concrete instance of C2 (the spec's own example): secret `"S"`, origin
`"https://example.com"`, label `"SAPISIDHASH"`. -/
theorem createAuthHash_no_params_witness :
    (AdditionalParams.null = AdditionalParams.null ∨
      AdditionalParams.null = AdditionalParams.nonArray) ∧
    ("https://example.com" : String) ≠ "" ∧ ("S" : String) ≠ "" ∧
    ("SAPISIDHASH" : String) ≠ "" ∧
    createAuthHash "https://example.com" "S" "SAPISIDHASH" AdditionalParams.null 0
      = some ("SAPISIDHASH" ++ " " ++ calculateHash ("S" ++ " " ++ "https://example.com")) :=
  ⟨Or.inl rfl, by decide, by decide, by decide,
    createAuthHash_no_params "https://example.com" "S" "SAPISIDHASH" AdditionalParams.null 0
      (Or.inl rfl) (by decide) (by decide) (by decide)⟩

/-- C3.  With a parameter array, the derived token is
`label ++ " " ++ ts ++ "_" ++ digest (++ "_" ++ concatenated keys when a key
is present)`, where the digest hashes `values.join(":") ++ " "` (only when
the parameter list is non-empty) followed by `ts ++ " " ++ secret ++ " " ++
origin`. -/
theorem createAuthHash_with_params (origin token label : String) (l : List AuthParam)
    (ts : Nat) (ho : origin ≠ "") (ht : token ≠ "") (hl : label ≠ "") :
    createAuthHash origin token label (AdditionalParams.params l) ts
      = some (label ++ " " ++ (toString ts ++ "_"
          ++ calculateHash
            ((if l = [] then "" else String.intercalate ":" (l.map (·.value)) ++ " ")
              ++ toString ts ++ " " ++ token ++ " " ++ origin)
          ++ (if l = [] then "" else "_" ++ String.join (l.map (·.key))))) := by
  by_cases hnil : l = []
  · subst hnil
    simp [createAuthHash, createAuthParams, ho, ht, hl, intercalate_pair,
      intercalate_triple]
  · have hvlen : (l.map (·.value)).length ≠ 0 := by simpa using hnil
    have hklen : (l.map (·.key)).length > 0 := by
      simp [List.length_pos, hnil]
    simp only [createAuthHash, createAuthParams, ho, ht, hl, and_self, if_pos,
      ne_eq, not_false_eq_true, hvlen, if_neg, hklen, if_pos, hnil,
      intercalate_pair, intercalate_triple, intercalate_quad]
    simp [String.append_assoc, intercalate_pair, intercalate_triple, intercalate_quad]

/-- Concrete instance of C3: one `{key: "k", value: "v"}` parameter. -/
theorem createAuthHash_with_params_witness :
    ("https://example.com" : String) ≠ "" ∧ ("S" : String) ≠ "" ∧
    ("SAPISIDHASH" : String) ≠ "" ∧
    createAuthHash "https://example.com" "S" "SAPISIDHASH"
        (AdditionalParams.params [⟨"k", "v"⟩]) 1700000000
      = some ("SAPISIDHASH" ++ " " ++ (toString (1700000000 : Nat) ++ "_"
          ++ calculateHash
            ((if ([⟨"k", "v"⟩] : List AuthParam) = [] then ""
              else String.intercalate ":" (([⟨"k", "v"⟩] : List AuthParam).map (·.value)) ++ " ")
              ++ toString (1700000000 : Nat) ++ " " ++ "S" ++ " " ++ "https://example.com")
          ++ (if ([⟨"k", "v"⟩] : List AuthParam) = [] then ""
              else "_" ++ String.join (([⟨"k", "v"⟩] : List AuthParam).map (·.key))))) :=
  ⟨by decide, by decide, by decide,
    createAuthHash_with_params "https://example.com" "S" "SAPISIDHASH" [⟨"k", "v"⟩]
      1700000000 (by decide) (by decide) (by decide)⟩

/-! ## Schema trailing-null trimming (claim C5) -/

/-- `convertResponseSchema` is the strip of the 8-slot field array. -/
theorem convertResponseSchema_eq (s : RSchema) :
    convertResponseSchema s = JVal.arr (stripTrailing (convertSchemaFields s)) := by
  cases s <;> rfl

/-- The strip removes an all-null suffix and nothing else. -/
theorem strip_decomp (l : List JVal) :
    ∃ junk, l = stripTrailing l ++ junk ∧ ∀ v ∈ junk, v = JVal.null := by
  by_cases hk : (l.reverse.dropWhile (fun v => decide (v = JVal.null))).reverse = []
  · exact ⟨[], by simp [stripTrailing, hk], by simp⟩
  · refine ⟨(l.reverse.takeWhile (fun v => decide (v = JVal.null))).reverse, ?_, ?_⟩
    · rw [show stripTrailing l
          = (l.reverse.dropWhile (fun v => decide (v = JVal.null))).reverse from
          by simp [stripTrailing, hk]]
      calc l = l.reverse.reverse := (List.reverse_reverse l).symm
        _ = (l.reverse.takeWhile (fun v => decide (v = JVal.null))
              ++ l.reverse.dropWhile (fun v => decide (v = JVal.null))).reverse := by
            rw [List.takeWhile_append_dropWhile]
        _ = _ := by rw [List.reverse_append]
    · intro v hv
      have := List.mem_takeWhile_imp (List.mem_reverse.mp hv)
      simpa using this

/-- If some entry is non-null, the strip is non-empty and ends in a non-null
entry. -/
theorem strip_getLast (l : List JVal) (hex : ∃ v ∈ l, v ≠ JVal.null) :
    stripTrailing l ≠ [] ∧ (stripTrailing l).getLast? ≠ some JVal.null := by
  have hdne : l.reverse.dropWhile (fun v => decide (v = JVal.null)) ≠ [] := by
    intro hnil
    rw [List.dropWhile_eq_nil_iff] at hnil
    obtain ⟨v, hv, hvn⟩ := hex
    exact hvn (by simpa using hnil v (List.mem_reverse.mpr hv))
  have hkne : (l.reverse.dropWhile (fun v => decide (v = JVal.null))).reverse ≠ [] := by
    simpa using hdne
  have hst : stripTrailing l
      = (l.reverse.dropWhile (fun v => decide (v = JVal.null))).reverse := by
    simp [stripTrailing, hkne]
  refine ⟨by rw [hst]; exact hkne, ?_⟩
  rw [hst, List.getLast?_reverse]
  rw [List.head?_eq_head hdne]
  have := List.head_dropWhile_not (fun v => decide (v = JVal.null)) l.reverse hdne
  simp at this
  simp [this]

/-- `convertResponseSchema` always returns an array. -/
theorem convertResponseSchema_isArr (s : RSchema) :
    ∃ t, convertResponseSchema s = JVal.arr t := by
  cases s <;> exact ⟨_, rfl⟩

/-- The first slot of the field array is the (non-null) type number. -/
theorem convertSchemaFields_head (s : RSchema) :
    ∃ k, (convertSchemaFields s).head? = some (JVal.num k) := by
  cases s <;> exact ⟨_, rfl⟩

/-- The field array always contains a non-null entry. -/
theorem convertSchemaFields_exists_nonnull (s : RSchema) :
    ∃ v ∈ convertSchemaFields s, v ≠ JVal.null := by
  obtain ⟨k, hk⟩ := convertSchemaFields_head s
  exact ⟨JVal.num k, List.mem_of_mem_head? hk, by simp⟩

/-- A mapped string list is a trimmed value. -/
theorem trimmed_mapStr (l : List String) : Trimmed (JVal.arr (l.map JVal.str)) := by
  refine Trimmed.arr _ ?_ ?_
  · intro v hv
    obtain ⟨s, _, rfl⟩ := List.mem_map.mp hv
    exact Trimmed.str s
  · rw [List.getLast?_map]
    cases l.getLast? <;> simp

/-- `optJ f` of a constructor-embedding is trimmed. -/
theorem trimmed_optJ_str (o : Option String) : Trimmed (optJ JVal.str o) := by
  cases o with
  | none => exact Trimmed.null
  | some s => exact Trimmed.str s

/-- `optJ f` of a constructor-embedding is trimmed. -/
theorem trimmed_optJ_bool (o : Option Bool) : Trimmed (optJ JVal.bool o) := by
  cases o with
  | none => exact Trimmed.null
  | some b => exact Trimmed.bool b

/-- The `enum`/`required` slot (`arr ? arr : null`) is trimmed. -/
theorem trimmed_enumJ (e : Option (List String)) :
    Trimmed (match e with | some l => JVal.arr (l.map JVal.str) | none => JVal.null) := by
  cases e with
  | none => exact Trimmed.null
  | some l => exact trimmed_mapStr l

/-- Stripping a list of trimmed values with a non-null entry yields a
trimmed array. -/
theorem trimmed_strip (l : List JVal) (hel : ∀ v ∈ l, Trimmed v)
    (hex : ∃ v ∈ l, v ≠ JVal.null) : Trimmed (JVal.arr (stripTrailing l)) := by
  obtain ⟨junk, hdec, _⟩ := strip_decomp l
  refine Trimmed.arr _ ?_ (strip_getLast l hex).2
  intro v hv
  exact hel v (hdec ▸ List.mem_append_left junk hv)

/-- The property-pair list of an object schema is trimmed whenever each
property's converted sub-schema is. -/
theorem trimmed_convertProps (props : List (String × RSchema))
    (ih : ∀ p ∈ props, Trimmed (convertResponseSchema p.2)) :
    Trimmed (JVal.arr (convertProps props)) := by
  induction props with
  | nil => exact Trimmed.arr _ (by simp [convertProps]) (by simp [convertProps])
  | cons p rest ihl =>
      have htail := ihl (fun q hq => ih q (List.mem_cons_of_mem p hq))
      refine Trimmed.arr _ ?_ ?_
      · intro v hv
        rw [show convertProps (p :: rest)
            = JVal.arr [JVal.str p.1, convertResponseSchema p.2] :: convertProps rest
            from rfl] at hv
        rcases List.mem_cons.mp hv with h | h
        · subst h
          obtain ⟨t, ht⟩ := convertResponseSchema_isArr p.2
          refine Trimmed.arr _ ?_ ?_
          · intro w hw
            rcases List.mem_cons.mp hw with h | h
            · exact h ▸ Trimmed.str p.1
            · simp at h
              exact h ▸ ih p (List.mem_cons_self p rest)
          · simp [ht]
        · cases htail with
          | arr _ helems _ => exact helems v h
      · rw [show convertProps (p :: rest)
            = JVal.arr [JVal.str p.1, convertResponseSchema p.2] :: convertProps rest
            from rfl]
        cases hgl : (convertProps rest).getLast? with
        | some w =>
            have hw := List.mem_of_mem_getLast? hgl
            cases htail with
            | arr _ _ hlast =>
                rw [List.getLast?_cons, hgl]
                simpa [hgl] using hlast
        | none =>
            rw [List.getLast?_cons, hgl]
            simp

/-- Every converted schema is trimmed (mutual structural induction over the
nested schema type). -/
theorem convertResponseSchema_trimmed : ∀ s : RSchema, Trimmed (convertResponseSchema s) :=
  @RSchema.rec (fun s => Trimmed (convertResponseSchema s))
    (fun props => ∀ p ∈ props, Trimmed (convertResponseSchema p.2))
    (fun p => Trimmed (convertResponseSchema p.2))
    (fun d n e => by
      refine trimmed_strip _ ?_ ⟨JVal.num _, List.mem_cons_self _ _, by simp⟩
      intro v hv
      simp only [convertSchemaFields, List.mem_cons, List.not_mem_nil, or_false] at hv
      rcases hv with rfl | rfl | rfl | rfl | rfl | rfl | rfl | rfl <;> first
        | exact Trimmed.num _
        | exact Trimmed.null
        | exact trimmed_optJ_str _
        | exact trimmed_optJ_bool _
        | exact trimmed_enumJ _)
    (fun d n => by
      refine trimmed_strip _ ?_ ⟨JVal.num _, List.mem_cons_self _ _, by simp⟩
      intro v hv
      simp only [convertSchemaFields, List.mem_cons, List.not_mem_nil, or_false] at hv
      rcases hv with rfl | rfl | rfl | rfl | rfl | rfl | rfl | rfl <;> first
        | exact Trimmed.num _
        | exact Trimmed.null
        | exact trimmed_optJ_str _
        | exact trimmed_optJ_bool _)
    (fun d n => by
      refine trimmed_strip _ ?_ ⟨JVal.num _, List.mem_cons_self _ _, by simp⟩
      intro v hv
      simp only [convertSchemaFields, List.mem_cons, List.not_mem_nil, or_false] at hv
      rcases hv with rfl | rfl | rfl | rfl | rfl | rfl | rfl | rfl <;> first
        | exact Trimmed.num _
        | exact Trimmed.null
        | exact trimmed_optJ_str _
        | exact trimmed_optJ_bool _)
    (fun d n => by
      refine trimmed_strip _ ?_ ⟨JVal.num _, List.mem_cons_self _ _, by simp⟩
      intro v hv
      simp only [convertSchemaFields, List.mem_cons, List.not_mem_nil, or_false] at hv
      rcases hv with rfl | rfl | rfl | rfl | rfl | rfl | rfl | rfl <;> first
        | exact Trimmed.num _
        | exact Trimmed.null
        | exact trimmed_optJ_str _
        | exact trimmed_optJ_bool _)
    (fun d n items ih => by
      refine trimmed_strip _ ?_ ⟨JVal.num _, List.mem_cons_self _ _, by simp⟩
      intro v hv
      simp only [convertSchemaFields, List.mem_cons, List.not_mem_nil, or_false] at hv
      rcases hv with rfl | rfl | rfl | rfl | rfl | rfl | rfl | rfl <;> first
        | exact Trimmed.num _
        | exact Trimmed.null
        | exact trimmed_optJ_str _
        | exact trimmed_optJ_bool _
        | exact ih)
    (fun d n props req ih => by
      refine trimmed_strip _ ?_ ⟨JVal.num _, List.mem_cons_self _ _, by simp⟩
      intro v hv
      simp only [convertSchemaFields, List.mem_cons, List.not_mem_nil, or_false] at hv
      rcases hv with rfl | rfl | rfl | rfl | rfl | rfl | rfl | rfl <;> first
        | exact Trimmed.num _
        | exact Trimmed.null
        | exact trimmed_optJ_str _
        | exact trimmed_optJ_bool _
        | exact trimmed_enumJ _
        | exact trimmed_convertProps _ ih)
    (by intro p hp; simp at hp)
    (fun hd tl ihhd ihtl p hp => by
      rcases List.mem_cons.mp hp with h | h
      · exact h ▸ ihhd
      · exact ihtl p h)
    (fun fst snd ih => ih)

/-- C5.  Every schema array built by `convertResponseSchema` is stripped at
the array level only: the emitted array `t` is a prefix of the raw 8-slot
field array whose removed suffix is all-null (interior nulls preserved),
`t` is non-empty, no null entry of `t` is followed only by nulls at the end
(its last entry is non-null), and the same holds recursively in every nested
sub-array (object properties and array items included), as expressed by
`Trimmed`. -/
theorem convertResponseSchema_trimming (s : RSchema) :
    (∃ t junk : List JVal,
      convertResponseSchema s = JVal.arr t ∧
      convertSchemaFields s = t ++ junk ∧
      (∀ v ∈ junk, v = JVal.null) ∧
      t ≠ [] ∧ t.getLast? ≠ some JVal.null) ∧
    Trimmed (convertResponseSchema s) := by
  refine ⟨?_, convertResponseSchema_trimmed s⟩
  obtain ⟨junk, hdec, hnull⟩ := strip_decomp (convertSchemaFields s)
  obtain ⟨hne, hlast⟩ := strip_getLast (convertSchemaFields s)
    (convertSchemaFields_exists_nonnull s)
  exact ⟨stripTrailing (convertSchemaFields s), junk, convertResponseSchema_eq s,
    hdec, hnull, hne, hlast⟩

/-! ## Unrecognized documents (claim C7)

`convertPromptData` dispatches solely on the presence of the
`generationConfig` key; there is no third branch and no absence-signalling
return.  A document carrying neither shape marker is simply handed to
`convertPromptStudio` and converted into a payload of mostly-null slots. -/

/-- Counterexample to C7: the empty document — it carries neither the
Gemini-API marker (`genConfigPresent = false`) nor the AI-Studio fields
(`runSettings` and `chunkedPrompt` absent) — is not answered with an
absence signal: `convertPromptData` takes the AI-Studio branch and returns
a fully built canonical payload. -/
theorem convertPromptData_no_absence_counterexample :
    ({} : PromptDoc).genConfigPresent = false ∧
    ({} : PromptDoc).runSettings = none ∧
    ({} : PromptDoc).chunkedPrompt = none ∧
    convertPromptData "p" {} = convertPromptStudio "p" {} ∧
    convertPromptData "p" {} = JVal.arr [JVal.arr
      [JVal.null, JVal.null, JVal.null,
        JVal.arr [JVal.null, JVal.null, JVal.null, JVal.null, JVal.null, JVal.null,
          JVal.null, unknownPad, JVal.str "text/plain", JVal.num 0, JVal.null, JVal.null,
          JVal.null, JVal.num 1, JVal.num 0, JVal.null, JVal.null, JVal.num 0, JVal.num 0],
        titleArr "p", JVal.null, JVal.null, JVal.null, JVal.null, JVal.null, JVal.null,
        JVal.null, JVal.arr [], JVal.arr [JVal.null, emptyUserTurn]]] :=
  ⟨rfl, rfl, rfl, rfl, rfl⟩

/-- C7 (amended).  `convertPromptData` never throws on a document without
the `generationConfig` key, but it returns no absence signal either: every
such document — the AI-Studio shape and unrecognized documents alike — is
converted by the AI-Studio branch into an ordinary payload, so callers
cannot distinguish "not a recognized prompt". -/
theorem convertPromptData_unmarked (name : String) (doc : PromptDoc)
    (h : doc.genConfigPresent = false) :
    convertPromptData name doc = convertPromptStudio name doc := by
  simp [convertPromptData, h]

/-- Concrete instance of the amended C7 at the markerless empty document. -/
theorem convertPromptData_unmarked_witness :
    ({} : PromptDoc).genConfigPresent = false ∧
    convertPromptData "q" {} = convertPromptStudio "q" {} :=
  ⟨rfl, convertPromptData_unmarked "q" {} rfl⟩

/-! ## Shape equivalence (claim C6)

The two converters read configuration fields from `generationConfig` resp.
`runSettings` — but they do not emit the `model` field identically:
`convertPromptAPI` prefixes `models/`, `convertPromptStudio` passes the
field through.  Two documents whose `model` fields hold the *same* string
therefore produce different payloads; equivalence holds once the Studio
document carries the fully-qualified name. -/

/-- Counterexample to C6 as stated: a Gemini-API document and an AI-Studio
document with literally the same configuration fields (`model = "m"`, all
else absent), the same (absent) system instruction and the same (empty)
message turns produce different canonical payloads — the API branch emits
`models/m` where the Studio branch emits `m`. -/
theorem convertPrompt_equiv_counterexample :
    convertPromptData "p"
        { genConfigPresent := true, model := some "m", chunkedPrompt := some [] }
      ≠ convertPromptData "p"
        { genConfigPresent := false, runSettings := some { model := some "m" },
          chunkedPrompt := some [] } := by
  decide

/-- C6 (amended).  For every pair of equivalent prompt documents — one in
Gemini-API shape, one in AI-Studio shape, expressing the same prompt name,
configuration fields (with the Studio `model` field carrying the
fully-qualified `models/…` name the API branch builds), system instruction
and message turns — the converter emits byte-identical canonical payloads
from either input. -/
theorem convertPrompt_equiv (name : String) (api studio : PromptDoc)
    (h : EquivDocs api studio) :
    convertPromptData name api = convertPromptData name studio := by
  obtain ⟨hapi, hstudio, htemp, htopP, htopK, hmax, hmime, hschema, hmodel, hsys, hchunks⟩ := h
  have hmodelJ : (match api.model with
      | some m => if m = "" then JVal.null else JVal.str ("models/" ++ m)
      | none => JVal.null)
      = (match studio.runSettings.bind (·.model) with
        | some m => JVal.str m
        | none => JVal.null) := by
    rw [hmodel]
    cases api.model with
    | none => rfl
    | some s => by_cases hs : s = "" <;> simp [apiQualifiedModel, hs]
  have hmsgs : JVal.arr (api.contents.flatMap
        (fun c => c.parts.map (fun p => convertMessage c.role p.text)))
      = (match studio.chunkedPrompt with
        | some chunks => JVal.arr (chunks.map (fun c => convertMessage c.role c.text))
        | none => JVal.null) := by
    rw [hchunks]
    congr 1
    rw [List.map_flatMap]
    simp [List.map_map, Function.comp_def]
  simp only [convertPromptData, hapi, hstudio, if_true, Bool.false_eq_true, if_false]
  simp only [convertPromptAPI, convertPromptStudio]
  rw [htemp, htopP, htopK, hmax, hmime, hschema, hsys, hmodelJ, hmsgs]

/-- Concrete instance of the amended C6: empty prompts whose Studio document
carries the qualified model name `models/m` for the API document's `m`. -/
theorem convertPrompt_equiv_witness :
    EquivDocs
      { genConfigPresent := true, model := some "m", chunkedPrompt := some [] }
      { genConfigPresent := false, runSettings := some { model := some "models/m" },
        chunkedPrompt := some [] } ∧
    convertPromptData "p"
        { genConfigPresent := true, model := some "m", chunkedPrompt := some [] }
      = convertPromptData "p"
        { genConfigPresent := false, runSettings := some { model := some "models/m" },
          chunkedPrompt := some [] } :=
  ⟨⟨rfl, rfl, rfl, rfl, rfl, rfl, rfl, rfl, rfl, rfl, rfl⟩,
    convertPrompt_equiv "p" _ _
      ⟨rfl, rfl, rfl, rfl, rfl, rfl, rfl, rfl, rfl, rfl, rfl⟩⟩

/-! ## Hex output format (claim C8)

`getHashHex` draws its characters from the uppercase table
`"0123456789ABCDEF"`; only the `calculateHash` wrapper lowercases. -/

set_option maxRecDepth 10000 in
/-- Counterexample to C8 as stated: for the empty input, `getHash` returns
`"DA39A3EE…"` — a 40-character string, but not a lowercase one. -/
theorem getHashHex_lower_counterexample :
    ¬ isLower40Hex (getHashHexM (updateH initHashState [])) := by
  decide

/-- The digest byte array always has 20 entries. -/
theorem digestH_length (st : HashState) : (digestH st).length = 20 := by
  simp [digestH, hashBytesOf]

/-- Every digest byte is below 256. -/
theorem digestH_lt (st : HashState) : ∀ b ∈ digestH st, b < 256 := by
  intro b hb
  simp only [digestH, hashBytesOf, List.mem_flatMap] at hb
  obtain ⟨w, _, hw⟩ := hb
  simp only [List.mem_cons, List.not_mem_nil, or_false] at hw
  have h255 : ∀ x : Nat, x &&& 255 < 256 := fun x =>
    Nat.lt_succ_of_le (Nat.and_le_right)
  rcases hw with rfl | rfl | rfl | rfl <;> exact h255 _

/-- Character lookups with index below 16 land in the digit table. -/
theorem hexChar_mem : ∀ n < 16, hexDigits.getD n ' ' ∈ hexDigits := by decide

/-- ASCII-lowercasing an uppercase hex digit gives a lowercase hex digit. -/
theorem hexChar_lower : ∀ c ∈ hexDigits, Char.toLower c ∈ lowerHexDigits := by decide

/-- A two-entry `flatMap` doubles the length. -/
theorem length_flatMap_pair {α β : Type} (f g : α → β) (l : List α) :
    (l.flatMap (fun b => [f b, g b])).length = 2 * l.length := by
  induction l with
  | nil => simp
  | cons x xs ih => simp [ih]; omega

/-- Every finalized hex string is 40 uppercase hex characters. -/
theorem getHashHexM_upper (st : HashState) : isUpper40Hex (getHashHexM st) := by
  constructor
  · show ((digestH st).flatMap
        (fun b => [hexDigits.getD (b / 16) ' ', hexDigits.getD (b % 16) ' '])).length = 40
    rw [length_flatMap_pair, digestH_length]
  · intro c hc
    have hc2 : c ∈ (digestH st).flatMap
        (fun b => [hexDigits.getD (b / 16) ' ', hexDigits.getD (b % 16) ' ']) := hc
    simp only [List.mem_flatMap] at hc2
    obtain ⟨b, hbmem, hbc⟩ := hc2
    have hblt := digestH_lt st b hbmem
    simp only [List.mem_cons, List.not_mem_nil, or_false] at hbc
    rcases hbc with rfl | rfl
    · exact hexChar_mem _ (by omega)
    · exact hexChar_mem _ (Nat.mod_lt _ (by omega))

/-- Lowercasing a 40-character uppercase hex string gives a 40-character
lowercase hex string. -/
theorem jsToLower_of_upper (s : String) (h : isUpper40Hex s) :
    isLower40Hex (jsToLower s) := by
  obtain ⟨hlen, hchars⟩ := h
  constructor
  · show (s.data.map Char.toLower).length = 40
    rw [List.length_map]
    exact hlen
  · intro c hc
    have hc2 : c ∈ s.data.map Char.toLower := hc
    obtain ⟨c0, hc0, rfl⟩ := List.mem_map.mp hc2
    exact hexChar_lower c0 (hchars c0 hc0)

/-- C8 (amended).  For every input, the engine's finalized `getHash` output
is a 40-character *uppercase* hexadecimal string; the `calculateHash`
wrapper applies `toLowerCase`, so the authorization pipeline sees a
40-character lowercase hexadecimal string. -/
theorem getHash_hex_format :
    (∀ st : HashState, isUpper40Hex (getHashHexM st)) ∧
    (∀ input : String, isLower40Hex (calculateHash input)) :=
  ⟨getHashHexM_upper,
    fun _ => jsToLower_of_upper _ (getHashHexM_upper _)⟩

/-! ## SHA-1 bit-exactness (claim C1)

The streaming engine is reduced to `absorb` — folding the compression
function over 64-byte chunks — and compared against the pad-then-compress
reference `refSha1Bytes`. -/

/-- Chunking the empty list. -/
theorem exactChunks_nil : exactChunks [] = [] := by
  rw [exactChunks]
  rfl

/-- Chunking a non-empty list. -/
theorem exactChunks_ne (l : List Nat) (h : l ≠ []) :
    exactChunks l = l.take 64 :: exactChunks (l.drop 64) := by
  rw [exactChunks]
  exact dif_neg h

/-- Absorbing nothing. -/
theorem absorb_nil (h : Sha1H) : absorb h [] = h := by
  simp [absorb, exactChunks_nil]

/-- Absorbing one leading 64-byte block. -/
theorem absorb_block (h : Sha1H) (c rest : List Nat) (hc : c.length = 64) :
    absorb h (c ++ rest) = absorb (processBlock h c) rest := by
  unfold absorb
  rw [exactChunks_ne _ (by
    intro hx
    have : c = [] := (List.append_eq_nil.mp hx).1
    simp [this] at hc)]
  rw [show (c ++ rest).take 64 = c from by rw [← hc]; exact List.take_left c rest]
  rw [show (c ++ rest).drop 64 = rest from by rw [← hc]; exact List.drop_left c rest]
  rfl

/-- Absorbing exactly one 64-byte block. -/
theorem absorb_single (h : Sha1H) (l : List Nat) (hl : l.length = 64) :
    absorb h l = processBlock h l := by
  have := absorb_block h l [] hl
  simpa [absorb_nil] using this

/-- Absorbing a block-aligned prefix first. -/
theorem absorb_append : ∀ (n : Nat) (a b : List Nat) (h : Sha1H),
    a.length = n → 64 ∣ n → absorb h (a ++ b) = absorb (absorb h a) b := by
  intro n
  induction n using Nat.strong_induction_on with
  | _ n ih =>
      intro a b h hlen hdvd
      rcases Nat.eq_zero_or_pos n with hz | hpos
      · subst hz
        have ha : a = [] := List.length_eq_zero.mp hlen
        subst ha
        simp [absorb_nil]
      · have h64 : 64 ≤ n := Nat.le_of_dvd hpos hdvd
        have hsplit : a = a.take 64 ++ a.drop 64 := (List.take_append_drop 64 a).symm
        have htl : (a.take 64).length = 64 := by
          rw [List.length_take]
          omega
        have hdl : (a.drop 64).length = n - 64 := by
          rw [List.length_drop]
          omega

        calc absorb h (a ++ b)
            = absorb h (a.take 64 ++ (a.drop 64 ++ b)) := by
              rw [← List.append_assoc, ← hsplit]
          _ = absorb (processBlock h (a.take 64)) (a.drop 64 ++ b) :=
              absorb_block _ _ _ htl
          _ = absorb (absorb (processBlock h (a.take 64)) (a.drop 64)) b := by
              refine ih (n - 64) (by omega) _ _ _ hdl ?_
              exact (Nat.dvd_sub' hdvd (dvd_refl 64))
          _ = absorb (absorb h (a.take 64 ++ a.drop 64)) b := by
              rw [absorb_block _ _ _ htl]
          _ = absorb (absorb h a) b := by rw [← hsplit]

/-- `x & 0xff` is `x mod 256`. -/
theorem and255_eq_mod (x : Nat) : x &&& 255 = x % 256 := by
  have := Nat.and_pow_two_sub_one_eq_mod x 8
  norm_num at this
  exact this

/-- For bit lengths below `2^32`, the engine's length field coincides with
the standard 64-bit big-endian length field. -/
theorem lenBytesJS_eq_refLenBytes (bl : Nat) (hbl : bl < 4294967296) :
    lenBytesJS bl = refLenBytes bl := by
  simp only [lenBytesJS, jsLenLoop, refLenBytes, List.cons_append, List.nil_append,
    Nat.shiftRight_eq_div_pow, and255_eq_mod]
  norm_num
  omega

/-- Net effect of the fast-path loop: it compresses whole 64-byte blocks
while *more* than 64 bytes remain, leaving `len - 64⌊(len-1)/64⌋` bytes. -/
theorem processFullAux_spec : ∀ (fuel : Nat) (data : List Nat) (h : Sha1H),
    data.length ≤ fuel →
    processFullAux fuel h data
      = (absorb h (data.take (64 * ((data.length - 1) / 64))),
         data.drop (64 * ((data.length - 1) / 64))) := by
  intro fuel
  induction fuel with
  | zero =>
      intro data h hle
      have : data = [] := List.length_eq_zero.mp (by omega)
      subst this
      simp [processFullAux, absorb_nil]
  | succ fuel ih =>
      intro data h hle
      rw [processFullAux]
      by_cases h64 : 64 < data.length
      · rw [if_pos h64]
        rw [ih (data.drop 64) _ (by rw [List.length_drop]; omega)]
        have hq : 64 * ((data.length - 1) / 64)
            = 64 + 64 * (((data.drop 64).length - 1) / 64) := by
          rw [List.length_drop]
          omega
        have htk : (data.take 64).length = 64 := by
          rw [List.length_take]; omega
        rw [hq, List.take_add, absorb_block _ _ _ htk, List.drop_drop]
      · rw [if_neg h64]
        have hq : (data.length - 1) / 64 = 0 := by omega
        simp [hq, absorb_nil]

/-- The fast path with its actual fuel. -/
theorem processFull_spec (h : Sha1H) (data : List Nat) :
    processFull h data
      = (absorb h (data.take (64 * ((data.length - 1) / 64))),
         data.drop (64 * ((data.length - 1) / 64))) :=
  processFullAux_spec data.length data h le_rfl

/-- The fast path does nothing on at most 64 bytes. -/
theorem processFull_small (h : Sha1H) (data : List Nat) (hle : data.length ≤ 64) :
    processFull h data = (h, data) := by
  rw [processFull_spec]
  have hq : (data.length - 1) / 64 = 0 := by omega
  simp [hq, absorb_nil]

/-- The buffering loop just appends when the block never fills. -/
theorem fillLoopAux_small : ∀ (fuel : Nat) (data buffer : List Nat) (h : Sha1H),
    data.length ≤ fuel → buffer.length + data.length < 64 →
    fillLoopAux fuel h buffer data = (h, buffer ++ data) := by
  intro fuel
  induction fuel with
  | zero =>
      intro data buffer h hle _
      have : data = [] := List.length_eq_zero.mp (by omega)
      subst this
      simp [fillLoopAux]
  | succ fuel ih =>
      intro data buffer h hle hlt
      cases data with
      | nil => simp [fillLoopAux]
      | cons b rest =>
          rw [fillLoopAux]
          rw [if_neg (by simp at hlt ⊢; omega)]
          rw [ih rest _ h (by simp at hle; omega) (by simp at hlt ⊢; omega)]
          simp

/-- The buffering loop compresses exactly once when the input just fills the
block, leaving an empty buffer. -/
theorem fillLoopAux_exact : ∀ (fuel : Nat) (data buffer : List Nat) (h : Sha1H),
    data.length ≤ fuel → data ≠ [] → buffer.length + data.length = 64 →
    fillLoopAux fuel h buffer data = (processBlock h (buffer ++ data), []) := by
  intro fuel
  induction fuel with
  | zero =>
      intro data buffer h hle hne _
      exact absurd (List.length_eq_zero.mp (by omega)) hne
  | succ fuel ih =>
      intro data buffer h hle hne hsum
      cases data with
      | nil => exact absurd rfl hne
      | cons b rest =>
          rw [fillLoopAux]
          by_cases hr : rest = []
          · subst hr
            rw [if_pos (by simp at hsum ⊢; omega)]
            rw [processFull_small _ _ (by simp)]
            simp [fillLoopAux]
          · rw [if_neg (by
              have hrp := List.length_pos.mpr hr
              simp at hsum ⊢
              omega)]
            rw [ih rest _ h (by simp at hle; omega) hr (by simp at hsum ⊢; omega)]
            simp

/-- The buffering loop during final padding with a nearly-full buffer
(`56 ≤ r ≤ 63`, 120 bytes in total): one block is compressed and 56 bytes
remain buffered. -/
theorem fillLoopAux_pad : ∀ (fuel : Nat) (data buffer : List Nat) (h : Sha1H),
    data.length ≤ fuel → 56 ≤ buffer.length → buffer.length ≤ 63 →
    buffer.length + data.length = 120 →
    fillLoopAux fuel h buffer data
      = (processBlock h (buffer ++ data.take (64 - buffer.length)),
         data.drop (64 - buffer.length)) := by
  intro fuel
  induction fuel with
  | zero =>
      intro data buffer h hle h56 h63 hsum
      omega
  | succ fuel ih =>
      intro data buffer h hle h56 h63 hsum
      cases data with
      | nil => simp at hsum; omega
      | cons b rest =>
          rw [fillLoopAux]
          by_cases h64 : buffer.length = 63
          · rw [if_pos (by simp [h64])]
            rw [processFull_small _ _ (by simp at hsum ⊢; omega)]
            rw [fillLoopAux_small fuel rest [] _ (by simp at hle; omega)
              (by simp at hsum ⊢; omega)]
            rw [show 64 - buffer.length = 1 from by omega]
            simp
          · rw [if_neg (by simp; omega)]
            rw [ih rest (buffer ++ [b]) h (by simp at hle; omega) (by simp; omega)
              (by simp; omega) (by simp at hsum ⊢; omega)]
            have hsucc : 64 - buffer.length = (64 - (buffer ++ [b]).length) + 1 := by
              simp
              omega
            rw [hsucc]
            simp

/-- Net effect of a single `update` from a fresh (empty-buffer) state:
`⌊len/64⌋` blocks are compressed and `len mod 64` bytes stay buffered. -/
theorem updateH_net (data : List Nat) (h : Sha1H) (t : Nat) :
    updateH ⟨h, [], t⟩ data
      = ⟨absorb h (data.take (64 * (data.length / 64))),
         data.drop (64 * (data.length / 64)), t + data.length⟩ := by
  unfold updateH fillLoop
  rw [if_pos (by simp), processFull_spec]
  dsimp only
  by_cases hc : data.length % 64 = 0 ∧ 0 < data.length
  · have hq : (data.length - 1) / 64 = data.length / 64 - 1 := by omega
    have hdlen : (data.drop (64 * ((data.length - 1) / 64))).length = 64 := by
      rw [List.length_drop]
      omega
    have hne : data.drop (64 * ((data.length - 1) / 64)) ≠ [] := by
      intro hx
      rw [hx] at hdlen
      simp at hdlen
    rw [fillLoopAux_exact _ _ _ _ le_rfl hne (by simpa using hdlen)]
    have hA : (data.take (64 * ((data.length - 1) / 64))).length
        = 64 * ((data.length - 1) / 64) := by
      rw [List.length_take]
      omega
    have habs : processBlock (absorb h (data.take (64 * ((data.length - 1) / 64))))
          ([] ++ data.drop (64 * ((data.length - 1) / 64)))
        = absorb h data := by
      rw [List.nil_append, ← absorb_single _ _ hdlen,
        ← absorb_append _ _ _ _ hA ⟨_, rfl⟩, List.take_append_drop]
    rw [habs]
    have htk : data.take (64 * (data.length / 64)) = data :=
      List.take_of_length_le (by omega)
    have hdr : data.drop (64 * (data.length / 64)) = [] :=
      List.drop_eq_nil_of_le (by omega)
    rw [htk, hdr]
  · have hq : (data.length - 1) / 64 = data.length / 64 := by omega
    rw [hq]
    rw [fillLoopAux_small _ _ _ _ le_rfl
      (by rw [List.length_drop]; simp only [List.length_nil, Nat.zero_add]; omega)]
    simp

/-- The eight-byte length loop always yields `k` bytes. -/
theorem jsLenLoop_length : ∀ (k bl : Nat), (jsLenLoop bl k).length = k := by
  intro k
  induction k with
  | zero => intro bl; rfl
  | succ k ih => intro bl; simp [jsLenLoop, ih]

/-- The padding array has 64 bytes. -/
theorem sha1Padding_length : sha1Padding.length = 64 := by
  simp [sha1Padding]

/-- Taking at most the whole padding array. -/
theorem length_take_pad (k : Nat) (hk : k ≤ 64) : (sha1Padding.take k).length = k := by
  rw [List.length_take, sha1Padding_length]
  exact min_eq_left hk

/-- `padding.take k` is `0x80` followed by `k - 1` zeros, for `1 ≤ k ≤ 64`. -/
theorem sha1Padding_take (k : Nat) (h1 : 1 ≤ k) (h2 : k ≤ 64) :
    sha1Padding.take k = 128 :: List.replicate (k - 1) 0 := by
  cases k with
  | zero => omega
  | succ m =>
      rw [show sha1Padding = 128 :: List.replicate 63 0 from rfl, List.take_succ_cons,
        List.take_replicate]
      simp only [Nat.succ_sub_one]
      rw [show m ⊓ 63 = m from by
        rw [Nat.min_def]
        split <;> omega]

/-- `updateH` with the final padding, short-buffer case: the padding is
buffered up to offset 56 and no block is compressed. -/
theorem updateH_pad_small (H1 : Sha1H) (rem : List Nat) (t : Nat)
    (hr : rem.length < 56) :
    updateH ⟨H1, rem, t⟩ (sha1Padding.take (56 - rem.length))
      = ⟨H1, rem ++ sha1Padding.take (56 - rem.length), t + (56 - rem.length)⟩ := by
  have hplen : (sha1Padding.take (56 - rem.length)).length = 56 - rem.length :=
    length_take_pad _ (by omega)
  unfold updateH fillLoop
  have hpr : (if (⟨H1, rem, t⟩ : HashState).buffer.length = 0 then
        processFull H1 (sha1Padding.take (56 - rem.length))
      else (H1, sha1Padding.take (56 - rem.length)))
      = (H1, sha1Padding.take (56 - rem.length)) := by
    split
    · exact processFull_small _ _ (by omega)
    · rfl
  rw [hpr]
  dsimp only
  rw [fillLoopAux_small _ _ _ _ le_rfl (by omega)]
  rw [hplen]

/-- `updateH` with the final padding, long-buffer case (`56 ≤ r ≤ 63`): the
buffer fills to 64 and is compressed, and 56 zero bytes stay buffered. -/
theorem updateH_pad_large (H1 : Sha1H) (rem : List Nat) (t : Nat)
    (h56 : 56 ≤ rem.length) (h63 : rem.length ≤ 63) :
    updateH ⟨H1, rem, t⟩ (sha1Padding.take (64 - (rem.length - 56)))
      = ⟨processBlock H1 (rem ++ sha1Padding.take (64 - rem.length)),
         List.replicate 56 0, t + (120 - rem.length)⟩ := by
  have hplen : (sha1Padding.take (64 - (rem.length - 56))).length
      = 120 - rem.length := by
    rw [length_take_pad (64 - (rem.length - 56)) (by omega)]
    omega
  unfold updateH fillLoop
  rw [if_neg (show ¬(rem.length = 0) from by omega)]
  dsimp only
  rw [fillLoopAux_pad _ _ _ _ le_rfl h56 h63 (by omega)]
  have htk : (sha1Padding.take (64 - (rem.length - 56))).take (64 - rem.length)
      = sha1Padding.take (64 - rem.length) := by
    rw [List.take_take]
    congr 1
    omega
  have hdrop : (sha1Padding.take (64 - (rem.length - 56))).drop (64 - rem.length)
      = List.replicate 56 0 := by
    rw [List.drop_take]
    have h1 : sha1Padding.drop (64 - rem.length)
        = List.replicate rem.length 0 := by
      have h2 : 64 - rem.length = (63 - rem.length) + 1 := by omega
      rw [show sha1Padding = 128 :: List.replicate 63 0 from rfl, h2,
        List.drop_succ_cons, List.drop_replicate]
      congr 1
      omega
    rw [h1, List.take_replicate]
    have h3 : 64 - (rem.length - 56) - (64 - rem.length) = 56 := by omega
    rw [h3]
    rw [show (56 : Nat) ⊓ rem.length = 56 from by
      rw [Nat.min_def]
      split <;> omega]
  rw [htk, hdrop, hplen]

/-- `digest()` in closed form: compress the standard tail — `0x80`, zeros to
the block boundary, and the engine's length field — and serialise. -/
theorem digestH_spec (H1 : Sha1H) (rem : List Nat) (t : Nat)
    (h63 : rem.length ≤ 63) :
    digestH ⟨H1, rem, t⟩
      = hashBytesOf (absorb H1 (rem ++ 128 ::
          List.replicate ((119 - rem.length) % 64) 0 ++ lenBytesJS (t * 8))) := by
  unfold digestH
  dsimp only
  by_cases hr : rem.length < 56
  · rw [if_pos hr, updateH_pad_small H1 rem t hr]
    dsimp only
    have hblen : (rem ++ sha1Padding.take (56 - rem.length)).length = 56 := by
      rw [List.length_append, length_take_pad (56 - rem.length) (by omega)]
      omega
    rw [show (rem ++ sha1Padding.take (56 - rem.length)).take 56
        = rem ++ sha1Padding.take (56 - rem.length) from
      List.take_of_length_le (le_of_eq hblen)]
    have hz : (119 - rem.length) % 64 = 55 - rem.length := by omega
    rw [hz, sha1Padding_take (56 - rem.length) (by omega) (by omega)]
    have h64 : (rem ++ 128 :: List.replicate (56 - rem.length - 1) 0
        ++ lenBytesJS (t * 8)).length = 64 := by
      simp [jsLenLoop_length, lenBytesJS]
      omega
    rw [show (56 : Nat) - rem.length - 1 = 55 - rem.length from by omega] at h64
    rw [absorb_single _ _ (by simpa using h64)]
    congr 2
    simp [show (56 : Nat) - rem.length - 1 = 55 - rem.length from by omega]
  · rw [if_neg hr, updateH_pad_large H1 rem t (by omega) h63]
    dsimp only
    rw [show (List.replicate 56 (0 : Nat)).take 56 = List.replicate 56 0 from
      List.take_of_length_le (by simp)]
    have hz : (119 - rem.length) % 64 = 119 - rem.length := by omega
    rw [hz]
    have hsplit : List.replicate (119 - rem.length) (0 : Nat)
        = List.replicate (63 - rem.length) 0 ++ List.replicate 56 0 := by
      rw [← List.replicate_add]
      congr 1
      omega
    rw [hsplit]
    have hc1 : (rem ++ 128 :: List.replicate (63 - rem.length) 0).length = 64 := by
      simp
      omega
    have habs : absorb H1 (rem ++ 128 ::
          (List.replicate (63 - rem.length) 0 ++ List.replicate 56 0)
          ++ lenBytesJS (t * 8))
        = processBlock (processBlock H1 (rem ++ 128 :: List.replicate (63 - rem.length) 0))
            (List.replicate 56 0 ++ lenBytesJS (t * 8)) := by
      have hassoc : rem ++ 128 ::
            (List.replicate (63 - rem.length) 0 ++ List.replicate 56 0)
            ++ lenBytesJS (t * 8)
          = (rem ++ 128 :: List.replicate (63 - rem.length) 0)
            ++ (List.replicate 56 0 ++ lenBytesJS (t * 8)) := by
        simp
      rw [hassoc, absorb_block _ _ _ hc1, absorb_single]
      simp [lenBytesJS, jsLenLoop_length]
    rw [habs]
    rw [sha1Padding_take (64 - rem.length) (by omega) (by omega)]
    rw [show (64 : Nat) - rem.length - 1 = 63 - rem.length from by omega]

/-- One update from the fresh generator followed by `digest()` produces the
reference SHA-1 digest, for all inputs shorter than `2^29` bytes (`8·len`
below `2^32`, where the engine's 32-bit length field is exact). -/
theorem sha1_digest_eq_ref (data : List Nat) (hlen : data.length < 2 ^ 29) :
    digestH (updateH initHashState data) = refSha1Bytes data := by
  rw [show initHashState = ⟨sha1Init, [], 0⟩ from rfl, updateH_net]
  have hrem : (data.drop (64 * (data.length / 64))).length = data.length % 64 := by
    rw [List.length_drop]
    omega
  rw [digestH_spec _ _ _ (by omega)]
  unfold refSha1Bytes refPad
  congr 1
  have hA : (data.take (64 * (data.length / 64))).length = 64 * (data.length / 64) := by
    rw [List.length_take]
    rw [show 64 * (data.length / 64) ⊓ data.length = 64 * (data.length / 64) from by
      rw [Nat.min_def]
      split <;> omega]
  rw [hrem, Nat.zero_add, lenBytesJS_eq_refLenBytes (data.length * 8) (by omega)]
  rw [← absorb_append _ _ _ _ hA ⟨_, rfl⟩, ← List.append_assoc, ← List.append_assoc,
    List.take_append_drop]

/-- C1.  The hash engine reproduces standard SHA-1 bit-exactly for every
input of fewer than `2^29` bytes: one `update` followed by `digest` yields
the reference digest.  At `2^29` bytes and beyond it does not: `bitLength
>>>= 8` truncates the running bit length to 32 bits, so the eight-byte
length field of a `2^32`-bit message is written as all zeros where standard
SHA-1 writes `00 00 00 01 00 00 00 00` — the compressed final blocks, and
hence the digests, differ from the standard. -/
theorem createHashGenerator_sha1_correct :
    (∀ data : List Nat, data.length < 2 ^ 29 →
      digestH (updateH initHashState data) = refSha1Bytes data) ∧
    lenBytesJS (2 ^ 29 * 8) ≠ refLenBytes (2 ^ 29 * 8) :=
  ⟨sha1_digest_eq_ref, by decide⟩

set_option maxRecDepth 100000 in
/-- Concrete instances of C1: the spec's test vectors — the empty input,
`"abc"`, and a two-block 112-byte input — agree with the reference both
abstractly (via the theorem) and as evaluated lowercase hex digests. -/
theorem createHashGenerator_sha1_correct_witness :
    ([] : List Nat).length < 2 ^ 29 ∧
    (utf8Bytes "abc").length < 2 ^ 29 ∧
    64 < (utf8Bytes "abcdefghbcdefghicdefghijdefghijkefghijklfghijklmghijklmnhijklmnoijklmnopjklmnopqklmnopqrlmnopqrsmnopqrstnopqrstu").length ∧
    (utf8Bytes "abcdefghbcdefghicdefghijdefghijkefghijklfghijklmghijklmnhijklmnoijklmnopjklmnopqklmnopqrlmnopqrsmnopqrstnopqrstu").length < 2 ^ 29 ∧
    digestH (updateH initHashState (utf8Bytes "abc")) = refSha1Bytes (utf8Bytes "abc") ∧
    digestH (updateH initHashState (utf8Bytes "abcdefghbcdefghicdefghijdefghijkefghijklfghijklmghijklmnhijklmnoijklmnopjklmnopqklmnopqrlmnopqrsmnopqrstnopqrstu"))
      = refSha1Bytes (utf8Bytes "abcdefghbcdefghicdefghijdefghijkefghijklfghijklmghijklmnhijklmnoijklmnopjklmnopqklmnopqrlmnopqrsmnopqrstnopqrstu") ∧
    calculateHash "" = "da39a3ee5e6b4b0d3255bfef95601890afd80709" ∧
    calculateHash "abc" = "a9993e364706816aba3e25717850c26c9cd0d89d" ∧
    calculateHash "abcdefghbcdefghicdefghijdefghijkefghijklfghijklmghijklmnhijklmnoijklmnopjklmnopqklmnopqrlmnopqrsmnopqrstnopqrstu"
      = "a49b2446a02c645bf419f995b67091253a04a259" :=
  ⟨by decide, by decide, by decide, by decide,
    createHashGenerator_sha1_correct.1 (utf8Bytes "abc") (by decide),
    createHashGenerator_sha1_correct.1 _ (by decide),
    by decide, by decide, by decide⟩

end AiStudioExt
